import Mathlib

/-!
Shallow embedding of the fakefat crate (a synthesizer that presents a backing
object store as a FAT32 block device) together with proofs about its
specification claims.  Machine integers are modelled as Nat with explicit
reductions modulo powers of two where the source may wrap; fallible lookups
return Option; Rust HashMaps are modelled as association lists with
insert-or-overwrite semantics.
-/

namespace FakeFat

/-! ## fat.rs : the FAT entry codec -/

def BAD_ENTRY : Nat := 0x0FFFFFF7

def END_OF_CHAIN : Nat := 0x0FFFFFFF

def FREE_ENTRY : Nat := 0

/-- A single entry in the File Allocation Table (fat.rs, FatEntryValue). -/
inductive FatEntryValue where
  | Free : FatEntryValue
  | Next (n : Nat) : FatEntryValue
  | Bad : FatEntryValue
  | End : FatEntryValue
deriving DecidableEq, Repr

/-- Embedding of the From u32 for FatEntryValue impl (fat.rs lines 25-34). -/
def FatEntryValue.fromU32 (inner : Nat) : FatEntryValue :=
  if inner = FREE_ENTRY then .Free
  else if inner = BAD_ENTRY then .Bad
  else if 0x0FFFFFF8 ≤ inner ∧ inner ≤ 0x0FFFFFFF then .End
  else .Next inner

/-- Embedding of the From FatEntryValue for u32 impl (fat.rs lines 36-45). -/
def FatEntryValue.toU32 : FatEntryValue → Nat
  | .Free => FREE_ENTRY
  | .Bad => BAD_ENTRY
  | .End => END_OF_CHAIN
  | .Next n => n

/-! ## bpb.rs : the BIOS parameter block (only the numeric fields read by the
translator and planner) -/

structure BiosParameterBlock where
  bytes_per_sector : Nat
  sectors_per_cluster : Nat
  reserved_sectors : Nat
  fats : Nat
  media : Nat
  sectors_per_track : Nat
  heads : Nat
  hidden_sectors : Nat
  total_sectors_32 : Nat
  sectors_per_fat_32 : Nat
  extended_flags : Nat
  root_dir_first_cluster : Nat
  fs_info_sector : Nat
  backup_boot_sector : Nat
  drive_num : Nat
  volume_id : Nat
deriving DecidableEq, Repr

/-- Default for BiosParameterBlock (bpb.rs lines 83-107). -/
def BiosParameterBlock.default : BiosParameterBlock :=
  { bytes_per_sector := 512
    sectors_per_cluster := 8
    reserved_sectors := 8
    fats := 2
    media := 0xf8
    sectors_per_track := 32
    heads := 64
    hidden_sectors := 0
    total_sectors_32 := 0
    sectors_per_fat_32 := 0
    extended_flags := 0
    root_dir_first_cluster := 2
    fs_info_sector := 1
    backup_boot_sector := 6
    drive_num := 0x80
    volume_id := 0 }

def BiosParameterBlock.bytes_per_cluster (bpb : BiosParameterBlock) : Nat :=
  bpb.bytes_per_sector * bpb.sectors_per_cluster

def BiosParameterBlock.fat_start (bpb : BiosParameterBlock) : Nat :=
  bpb.reserved_sectors * bpb.bytes_per_sector

def BiosParameterBlock.fat_end (bpb : BiosParameterBlock) : Nat :=
  bpb.fat_start + bpb.fats * bpb.sectors_per_fat_32 * bpb.bytes_per_sector

/-- Embedding of default_sectors_per_fat (bpb.rs lines 258-263). -/
def default_sectors_per_fat (bpb : BiosParameterBlock) : Nat :=
  let top := bpb.total_sectors_32 - bpb.reserved_sectors + 2 * bpb.sectors_per_cluster
  let bottom := bpb.fats + bpb.bytes_per_cluster / 4
  top / bottom

/-- Embedding of idx_to_cluster (fat.rs lines 51-57).  Note that the modulus
taken by the source is the plain sector count sectors_per_fat_32, not the byte
size of one FAT. -/
def idx_to_cluster (bpb : BiosParameterBlock) (idx : Nat) : Nat :=
  let reserved_sectors := bpb.reserved_sectors
  let reserved_bytes := reserved_sectors * bpb.bytes_per_sector
  let fat_offset := (idx - reserved_bytes) % bpb.sectors_per_fat_32
  let entry_cluster := fat_offset / 4
  entry_cluster

/-! ## faker.rs : the address translator -/

def BPB_SIZE : Nat := 512

def FSINFO_SIZE : Nat := 512

/-- Semantic classification of a raw device offset (faker.rs, FakerAddress). -/
inductive FakerAddress where
  | Bpb (idx : Nat) : FakerAddress
  | FsInfo (idx : Nat) : FakerAddress
  | Fat (cluster : Nat) (byte : Nat) : FakerAddress
  | RawData (cluster : Nat) (offset : Nat) : FakerAddress
deriving DecidableEq, Repr

/-- Embedding of FakerAddress::from_raw_idx (faker.rs lines 308-332). -/
def FakerAddress.from_raw_idx (idx : Nat) (bpb : BiosParameterBlock) : FakerAddress :=
  if idx < BPB_SIZE then
    .Bpb idx
  else if idx < BPB_SIZE + FSINFO_SIZE then
    .FsInfo (idx - BPB_SIZE)
  else if bpb.fat_start ≤ idx ∧ idx < bpb.fat_end then
    .Fat (idx_to_cluster bpb idx) (idx % 4)
  else
    let cluster_size := bpb.bytes_per_cluster
    let data_begin_offset := bpb.fat_end
    .RawData ((idx - data_begin_offset) / cluster_size) ((idx - data_begin_offset) % cluster_size)

/-- The FAT-region cluster formula as the specification states it (section 4.5
of the spec): the offset into the FAT region is reduced modulo the byte size
of a single FAT copy, sectors_per_fat_32 times bytes_per_sector.  This
definition follows the words of the spec so that it can be compared with the
source-derived idx_to_cluster. -/
def specFatCluster (bpb : BiosParameterBlock) (idx : Nat) : Nat :=
  let reserved_bytes := bpb.reserved_sectors * bpb.bytes_per_sector
  ((idx - reserved_bytes) % (bpb.sectors_per_fat_32 * bpb.bytes_per_sector)) / 4

/-! ## clustermapping.rs : the alloc-backed cluster mapper.  The two HashMaps
are modelled as association lists; insertion overwrites the first matching
key or appends a fresh pair. -/

/-- Insert-or-overwrite into the cluster-to-path map (HashMap::insert in
add_cluster_to_path, clustermapping.rs line 271). -/
def setClusterPath : List (Nat × List Char) → Nat → List Char → List (Nat × List Char)
  | [], cluster, path => [(cluster, path)]
  | e :: rest, cluster, path =>
    if e.1 == cluster then (cluster, path) :: rest
    else e :: setClusterPath rest cluster path

/-- Create-if-absent then push onto the chain for a path (the body of
add_cluster_to_path, clustermapping.rs lines 264-272). -/
def pushChain : List (List Char × List Nat) → List Char → Nat → List (List Char × List Nat)
  | [], path, cluster => [(path, [cluster])]
  | e :: rest, path, cluster =>
    if e.1 == path then (e.1, e.2 ++ [cluster]) :: rest
    else e :: pushChain rest path cluster

structure AllocClusterMapper where
  cluster_mapping : List (Nat × List Char)
  path_mapping : List (List Char × List Nat)
deriving DecidableEq, Repr

def AllocClusterMapper.new : AllocClusterMapper := ⟨[], []⟩

/-- Embedding of get_path_for_cluster (clustermapping.rs lines 256-258). -/
def AllocClusterMapper.get_path_for_cluster (m : AllocClusterMapper) (cluster : Nat) :
    Option (List Char) :=
  (m.cluster_mapping.find? (fun e => e.1 == cluster)).map (fun e => e.2)

/-- Embedding of get_chain_for_path (clustermapping.rs lines 259-263). -/
def AllocClusterMapper.get_chain_for_path (m : AllocClusterMapper) (path : List Char) :
    List Nat :=
  ((m.path_mapping.find? (fun e => e.1 == path)).map (fun e => e.2)).getD []

/-- Embedding of add_cluster_to_path (clustermapping.rs lines 264-272). -/
def AllocClusterMapper.add_cluster_to_path (m : AllocClusterMapper) (path : List Char)
    (cluster : Nat) : AllocClusterMapper :=
  { cluster_mapping := setClusterPath m.cluster_mapping cluster path
    path_mapping := pushChain m.path_mapping path cluster }

/-- Embedding of is_allocated (clustermapping.rs lines 274-276). -/
def AllocClusterMapper.is_allocated (m : AllocClusterMapper) (cluster : Nat) : Bool :=
  (m.get_path_for_cluster cluster).isSome

/-- Embedding of the ClusterMapperOps default method get_chain_with_cluster
(clustermapping.rs lines 41-44). -/
def AllocClusterMapper.get_chain_with_cluster (m : AllocClusterMapper) (cluster : Nat) :
    Option (List Nat) :=
  (m.get_path_for_cluster cluster).map m.get_chain_for_path

/-- Embedding of the ClusterMapperOps default method get_chain_head_for_path
(clustermapping.rs lines 48-50). -/
def AllocClusterMapper.get_chain_head_for_path (m : AllocClusterMapper) (path : List Char) :
    Option Nat :=
  (m.get_chain_for_path path).head?

/-! ## faker.rs : the FAT branch of read_byte -/

/-- Embedding of the FAT arm of FakeFat::read_byte (faker.rs lines 247-257).
The overlay lookup self.changes.cluster_entry is abstracted as the function
argument changes (AllocChangeSet::cluster_entry is a plain map lookup).  The
Rust iterator pipeline skip_while(l != cluster).next() is dropWhile followed
by head?. -/
def fatEntryRead (changes : Nat → Option FatEntryValue) (m : AllocClusterMapper)
    (cluster : Nat) : FatEntryValue :=
  match changes cluster with
  | some changed => changed
  | none =>
    match m.get_chain_with_cluster cluster with
    | some cur_chain =>
      match (cur_chain.dropWhile (fun l => l != cluster)).head? with
      | some c => FatEntryValue.fromU32 c
      | none => .End
    | none => .Free

/-- Byte extraction that follows the computed entry in read_byte
(faker.rs lines 259-261). -/
def read_byte_fat (changes : Nat → Option FatEntryValue) (m : AllocClusterMapper)
    (cluster : Nat) (byte : Nat) : Nat :=
  let entry_bytes := (fatEntryRead changes m cluster).toU32
  let shift := byte * 8
  (entry_bytes &&& (0xFF <<< shift)) >>> shift

/-! ## datetime.rs : calendar date and time codecs.  The year/month/day and
hour/minute/second/tenths fields are u16/u8 values modelled as Nat. -/

def NONLEAP_MONTH_RANGES : List Nat :=
  [0, 31, 59, 90, 120, 151, 181, 212, 243, 273, 304, 334, 365]

def LEAP_MONTH_RANGES : List Nat :=
  [0, 31, 60, 91, 121, 152, 182, 213, 244, 274, 305, 335, 366]

structure Date where
  year : Nat
  month : Nat
  day : Nat
deriving DecidableEq, Repr

def Date.default : Date := ⟨1980, 1, 1⟩

def Date.with_year (d : Date) (year : Nat) : Date := { d with year := year }

def Date.with_month (d : Date) (month : Nat) : Date := { d with month := month }

def Date.with_day (d : Date) (day : Nat) : Date := { d with day := day }

/-- Embedding of Date::fat_encode (datetime.rs lines 96-105).  The u16 shift
of the epoch year is reduced modulo 2 to the 16; the month and day parts stay
below 2 to the 16 for every u8 input so no reduction is needed there. -/
def Date.fat_encode (d : Date) : Nat :=
  let epoch_year := d.year - 1980
  let year_part := (epoch_year <<< 9) % 65536
  let month_part := d.month <<< 5
  let day_part := d.day
  year_part ||| month_part ||| day_part

/-- Embedding of Date::fat_decode (datetime.rs lines 108-119). -/
def Date.fat_decode (encoded : Nat) : Date :=
  let epoch_year := encoded >>> 9
  let year := epoch_year + 1980
  let month := (encoded >>> 5) &&& 0xF
  let day := encoded &&& 0x1f
  ((Date.default.with_year year).with_month month).with_day day

structure Time where
  hour : Nat
  minute : Nat
  second : Nat
  tenths : Nat
deriving DecidableEq, Repr

def Time.default : Time := ⟨0, 0, 0, 0⟩

def Time.with_hour (t : Time) (hour : Nat) : Time := { t with hour := hour }

def Time.with_minute (t : Time) (minute : Nat) : Time := { t with minute := minute }

def Time.with_second (t : Time) (second : Nat) : Time := { t with second := second }

def Time.with_tenths (t : Time) (tenths : Nat) : Time := { t with tenths := tenths }

/-- Embedding of Time::decode (datetime.rs lines 217-225). -/
def Time.decode (encoded : Nat) : Time :=
  let hour := encoded >>> 11
  let min := (encoded >>> 5) &&& 0x3F
  let sec := (encoded &&& 0x1F) * 2
  ((Time.default.with_hour hour).with_minute min).with_second sec

/-- Embedding of Time::fat_encode_simple (datetime.rs lines 241-246).  All
three parts stay below 2 to the 16 for in-range fields, and the hour shift is
reduced modulo 2 to the 16 like the u16 it is. -/
def Time.fat_encode_simple (t : Time) : Nat :=
  let hour_part := (t.hour <<< 11) % 65536
  let min_part := t.minute <<< 5
  let sec_part := t.second / 2
  hour_part ||| min_part ||| sec_part

/-- Embedding of Time::fat_encode_hi_res (datetime.rs lines 250-253). -/
def Time.fat_encode_hi_res (t : Time) : Nat :=
  let second_mod_part := (t.second % 2) * 100
  second_mod_part ||| t.tenths

/-! Support for Date::from_epoch_millis: Rust i32 casts and operators. -/

/-- Reinterpretation of the low 32 bits of a u64 as an i32 (a Rust as-cast). -/
def u64_to_i32 (n : Nat) : Int :=
  let r := n % 4294967296
  if r < 2147483648 then (r : Int) else (r : Int) - 4294967296

/-- Two's-complement wrap of an integer into the i32 range (the release-mode
behaviour of overflowing i32 arithmetic). -/
def i32_wrap (x : Int) : Int :=
  let r := x % 4294967296
  if r < 2147483648 then r else r - 4294967296

/-- Truncation of an i32 to its low 16 bits as a u16 (a Rust as-cast). -/
def i32_to_u16 (x : Int) : Nat :=
  (x % 65536).toNat

/-- The years / year_offset pair computed by Date::from_epoch_millis
(datetime.rs lines 122-139).  Rust's remainder on i32 truncates toward zero,
which is Int.tmod; the u64 subtraction in the negative branch wraps. -/
def epochYearsAndOffset (millis : Nat) : Nat × Nat :=
  let days_since_epoch := millis / (24 * 60 * 60 * 1000)
  let unleaped_years_since_epoch := days_since_epoch / 365
  let leap_years := unleaped_years_since_epoch / 4
  let raw_year_offset : Int :=
    i32_wrap (Int.tmod (u64_to_i32 days_since_epoch) 365 - u64_to_i32 leap_years)
  if raw_year_offset < 0 then
    (((unleaped_years_since_epoch + 18446744073709551615) % 18446744073709551616) % 65536,
      i32_to_u16 (raw_year_offset + 365))
  else
    (unleaped_years_since_epoch % 65536, i32_to_u16 raw_year_offset)

/-- The table-selection condition of Date::from_epoch_millis (datetime.rs
line 140): the leap table is used exactly when the years counter is divisible
by four. -/
def usesLeapTable (millis : Nat) : Bool :=
  (epochYearsAndOffset millis).1 % 4 == 0

/-- The month/day scan of Date::from_epoch_millis (datetime.rs lines 145-157):
the first index below 13 whose prefix sum exceeds year_offset wins; if none
does, month and day stay zero. -/
def findMonthDay (ranges : List Nat) (year_offset : Nat) : Nat × Nat :=
  match (List.range 13).find? (fun idx => year_offset < ranges.getD idx 0) with
  | some idx =>
    (idx, if idx = 0 then year_offset + 1 else year_offset - ranges.getD (idx - 1) 0 + 1)
  | none => (0, 0)

/-- Embedding of Date::from_epoch_millis (datetime.rs lines 122-162). -/
def Date.from_epoch_millis (millis : Nat) : Date :=
  let yo := epochYearsAndOffset millis
  let years := yo.1
  let year_offset := yo.2
  let month_ranges := if years % 4 == 0 then LEAP_MONTH_RANGES else NONLEAP_MONTH_RANGES
  let md := findMonthDay month_ranges year_offset
  ((Date.default.with_day (md.2 % 256)).with_month (md.1 % 256)).with_year
    ((1970 + years) % 65536)

/-! ## shortname.rs : the 8.3 short-name codec.  Rust strings are modelled as
lists of chars; byte lengths and the byte view name.as_bytes() go through an
explicit UTF-8 encoder so that multi-byte characters count as in the source. -/

def is_ascii_lowercase (c : Char) : Bool := 97 ≤ c.toNat && c.toNat ≤ 122

def is_ascii_uppercase (c : Char) : Bool := 65 ≤ c.toNat && c.toNat ≤ 90

def is_ascii_digit (c : Char) : Bool := 48 ≤ c.toNat && c.toNat ≤ 57

/-- Embedding of is_end_marker (shortname.rs lines 262-264). -/
def is_end_marker (inp : Char) : Bool :=
  inp == ' ' || inp == '.' || inp == '\u0000'

/-- Embedding of is_valid_char (shortname.rs lines 243-260); len_utf8 of one
means the code point is below 128. -/
def is_valid_char (inp : Char) : Bool :=
  inp.toNat < 128 &&
    (is_ascii_uppercase inp || is_ascii_lowercase inp || is_ascii_digit inp ||
      is_end_marker inp ||
      inp == '!' || inp == '@' || inp == '#' || inp == '$' || inp == '%' ||
      inp == '^' || inp == '&' || inp == '(' || inp == ')' || inp == '{' || inp == '}')

/-- Embedding of case_val (shortname.rs lines 266-274). -/
def case_val (inp : Char) : Nat :=
  if is_ascii_lowercase inp then 1
  else if is_ascii_uppercase inp then 2
  else 0

/-- The UTF-8 bytes of one char; char_to_byte in the source takes the first of
these (shortname.rs lines 237-241). -/
def charUtf8Bytes (c : Char) : List Nat :=
  let n := c.toNat
  if n < 0x80 then [n]
  else if n < 0x800 then
    [0xC0 ||| (n >>> 6), 0x80 ||| (n &&& 0x3F)]
  else if n < 0x10000 then
    [0xE0 ||| (n >>> 12), 0x80 ||| ((n >>> 6) &&& 0x3F), 0x80 ||| (n &&& 0x3F)]
  else
    [0xF0 ||| (n >>> 18), 0x80 ||| ((n >>> 12) &&& 0x3F), 0x80 ||| ((n >>> 6) &&& 0x3F),
      0x80 ||| (n &&& 0x3F)]

/-- Embedding of char_to_byte (shortname.rs lines 237-241). -/
def char_to_byte (c : Char) : Nat := (charUtf8Bytes c).getD 0 0

/-- The byte view name.as_bytes() of a Rust str. -/
def nameBytes (name : List Char) : List Nat := name.flatMap charUtf8Bytes

/-- The byte length name.len() of a Rust str. -/
def strByteLen (name : List Char) : Nat := (nameBytes name).length

/-- Embedding of to_ascii_uppercase for the ASCII chars this crate feeds it. -/
def to_ascii_uppercase (c : Char) : Char :=
  if is_ascii_lowercase c then Char.ofNat (c.toNat - 32) else c

structure ShortName where
  data : List Nat
  lower_name : Bool
  lower_ext : Bool
deriving DecidableEq, Repr

def ShortName.default : ShortName := ⟨List.replicate 11 32, false, false⟩

/-- The extension loop of ShortName::from_str (shortname.rs lines 155-169);
idx is the position past the end marker, name_case the case seen in the name
part.  All chars examined on live paths are ASCII, so char positions coincide
with the byte offsets the source uses. -/
def extLoop : List Char → Nat → Nat → Nat → ShortName → Option ShortName
  | [], _, _, _, acc => some acc
  | c :: rest, idx, name_case, ext_case, acc =>
    let case := case_val c
    if idx > 2 || !is_valid_char c || name_case + case == 3 then none
    else if is_end_marker c then some acc
    else
      let acc := if ext_case == 0 && case != 0 then { acc with lower_ext := case == 1 } else acc
      let ext_case := if ext_case == 0 && case != 0 then case else ext_case
      extLoop rest (idx + 1) name_case ext_case
        { acc with data := acc.data.set (idx + 8) (char_to_byte c) }

/-- The name-part loop of ShortName::from_str (shortname.rs lines 136-154);
on hitting an end marker at a nonzero index it switches to the extension loop
over the remaining chars, matching char_indices().skip(ext_idx + 1). -/
def nameLoop : List Char → Nat → Nat → ShortName → Option ShortName
  | [], _, _, acc => some acc
  | c :: rest, idx, name_case, acc =>
    let case := case_val c
    if idx > 7 || !is_valid_char c || name_case + case == 3 then none
    else if is_end_marker c then
      if idx == 0 then none
      else extLoop rest 0 name_case 0 acc
    else
      let acc := if name_case == 0 && case != 0 then { acc with lower_name := case == 1 } else acc
      let name_case := if name_case == 0 && case != 0 then case else name_case
      nameLoop rest (idx + 1) name_case
        { acc with data := acc.data.set idx (char_to_byte c) }

/-- Embedding of ShortName::from_str (shortname.rs lines 126-171). -/
def ShortName.from_str (name : List Char) : Option ShortName :=
  if strByteLen name > 11 || name.isEmpty then none
  else nameLoop name 0 0 ShortName.default

/-- Embedding of to_valid_shortname (shortname.rs lines 276-286). -/
def to_valid_shortname (raw : List Char) : List Char :=
  raw.filterMap (fun c =>
    if is_end_marker c then none
    else if !is_valid_char c then some '_'
    else some (to_ascii_uppercase c))

/-- Index of the last dot, as rfind over char_indices returns it
(shortname.rs lines 183-186). -/
def lastDotIdx (name : List Char) : Option Nat :=
  ((name.enum.filter (fun p => p.2 == '.')).getLast?).map (fun p => p.1)

/-- The name-part fill loop of ShortName::convert_str (shortname.rs lines
189-196): write a byte, advance, stop once the write index passes 7. -/
def writeNameBytes : List Nat → List Char → Nat → List Nat
  | data, [], _ => data
  | data, c :: rest, idx =>
    let data := data.set idx (char_to_byte c)
    if idx + 1 > 7 then data else writeNameBytes data rest (idx + 1)

/-- The extension fill loop of ShortName::convert_str (shortname.rs lines
197-205): write at idx + 8, advance, stop when idx + 8 reaches the end. -/
def writeExtBytes : List Nat → List Char → Nat → List Nat
  | data, [], _ => data
  | data, c :: rest, idx =>
    let data := data.set (idx + 8) (char_to_byte c)
    if idx + 1 + 8 ≥ 11 then data else writeExtBytes data rest (idx + 1)

/-- The duplicate-suffix digit loop of ShortName::convert_str (shortname.rs
lines 210-218): peel decimal digits from the low end, writing each at cur and
stepping down; returns the written buffer and the final cursor. -/
def digitLoopPair (data : List Nat) (cur left : Nat) : List Nat × Nat :=
  if h : left > 0 then
    digitLoopPair (data.set cur (left % 10 + 48)) (cur - 1) (left / 10)
  else (data, cur)
termination_by left
decreasing_by exact Nat.div_lt_self h (by norm_num)

/-- Embedding of ShortName::convert_str (shortname.rs lines 176-222). -/
def ShortName.convert_str (name : List Char) (duplicate_count : Nat) : ShortName :=
  match ShortName.from_str name with
  | some r => r
  | none =>
    let retval := ShortName.default
    let ext_idx := lastDotIdx name
    let name_part_raw := match ext_idx with | some i => name.take i | none => name
    let ext_part_raw := match ext_idx with | some i => name.drop i | none => []
    let name_part := to_valid_shortname name_part_raw
    let retval := { retval with data := writeNameBytes retval.data name_part 0 }
    let ext_part := to_valid_shortname ext_part_raw
    let retval := { retval with data := writeExtBytes retval.data ext_part 0 }
    if duplicate_count == 0 then
      { retval with data := (retval.data.set 6 126).set 7 126 }
    else
      let dl := digitLoopPair retval.data 7 duplicate_count
      { retval with data := dl.1.set dl.2 126 }

/-- Embedding of ShortName::lfn_checksum (shortname.rs lines 226-234); the
rotate-and-add accumulator is a u8, reduced modulo 256 at the wrapping add. -/
def ShortName.lfn_checksum (s : ShortName) : Nat :=
  s.data.foldl
    (fun retval c =>
      let shifted_retval := ((retval &&& 1) <<< 7) + ((retval &&& 0xFE) >>> 1)
      (shifted_retval + c) % 256)
    0

/-! ## dirent.rs : directory entries.  FileAttributes is a u8 newtype,
modelled as a Nat. -/

namespace FileAttributes

def READ_ONLY : Nat := 0x01

def HIDDEN : Nat := 0x02

def SYSTEM : Nat := 0x04

def VOLUME_ID : Nat := 0x08

def DIRECTORY : Nat := 0x10

def ARCHIVE : Nat := 0x20

def file : Nat := 0

def directory : Nat := DIRECTORY

def volume_label : Nat := VOLUME_ID

def and_read_only (a : Nat) : Nat := a ||| READ_ONLY

def and_hidden (a : Nat) : Nat := a ||| HIDDEN

def and_system (a : Nat) : Nat := a ||| SYSTEM

/-- Embedding of FileAttributes::lfn (dirent.rs lines 79-84). -/
def lfn : Nat := and_system (and_hidden (and_read_only volume_label))

end FileAttributes

structure FileDirEntry where
  name : ShortName
  attrs : Nat
  create_time : Time
  create_date : Date
  access_date : Date
  first_cluster : Nat
  modify_time : Time
  modify_date : Date
  size : Nat
deriving DecidableEq, Repr

def FileDirEntry.default : FileDirEntry :=
  { name := ShortName.default
    attrs := 0
    create_time := Time.default
    create_date := Date.default
    access_date := Date.default
    first_cluster := 0
    modify_time := Time.default
    modify_date := Date.default
    size := 0 }

structure LfnDirEntry where
  entry_num : Nat
  attrs : Nat
  checksum : Nat
  name_part : List Nat
deriving DecidableEq, Repr

/-- Default for LfnDirEntry (dirent.rs lines 176-185). -/
def LfnDirEntry.default : LfnDirEntry :=
  { entry_num := 0
    attrs := FileAttributes.lfn
    checksum := 0
    name_part := List.replicate 13 0 }

/-- Embedding of the ReadByte impl for LfnDirEntry (dirent.rs lines 187-211). -/
def LfnDirEntry.read_byte (e : LfnDirEntry) (idx : Nat) : Nat :=
  if idx = 0 then e.entry_num
  else if idx = 1 then e.name_part.getD 0 0
  else if idx = 3 then e.name_part.getD 1 0
  else if idx = 5 then e.name_part.getD 2 0
  else if idx = 7 then e.name_part.getD 3 0
  else if idx = 9 then e.name_part.getD 4 0
  else if idx = 11 then e.attrs
  else if idx = 12 then 0
  else if idx = 13 then e.checksum
  else if idx = 14 then e.name_part.getD 5 0
  else if idx = 16 then e.name_part.getD 6 0
  else if idx = 18 then e.name_part.getD 7 0
  else if idx = 20 then e.name_part.getD 8 0
  else if idx = 22 then e.name_part.getD 9 0
  else if idx = 24 then e.name_part.getD 10 0
  else if idx = 28 then e.name_part.getD 11 0
  else if idx = 30 then e.name_part.getD 12 0
  else 0

/-- Directory entry union (dirent.rs, Fat32DirectoryEntry). -/
inductive Fat32DirectoryEntry where
  | File (f : FileDirEntry) : Fat32DirectoryEntry
  | LongFileName (l : LfnDirEntry) : Fat32DirectoryEntry
  | Empty : Fat32DirectoryEntry
deriving DecidableEq, Repr

/-! ## traits.rs : backing metadata -/

structure FileMetadata where
  is_directory : Bool
  is_hidden : Bool
  is_read_only : Bool
  create_time : Time
  create_date : Date
  access_date : Date
  modify_time : Time
  modify_date : Date
  size : Nat
deriving DecidableEq, Repr

def FileMetadata.default : FileMetadata :=
  { is_directory := false
    is_hidden := false
    is_read_only := false
    create_time := Time.default
    create_date := Date.default
    access_date := Date.default
    modify_time := Time.default
    modify_date := Date.default
    size := 0 }

/-- Embedding of FileMetadata::to_dirent (traits.rs lines 39-64). -/
def FileMetadata.to_dirent (m : FileMetadata) : FileDirEntry :=
  let retval := FileDirEntry.default
  let retval := { retval with
    create_time := m.create_time
    create_date := m.create_date
    modify_time := m.modify_time
    modify_date := m.modify_date
    access_date := m.access_date
    size := m.size }
  let attrs := if m.is_directory then FileAttributes.directory else FileAttributes.file
  let attrs := if m.is_hidden then FileAttributes.and_hidden attrs else attrs
  let attrs := if m.is_read_only then FileAttributes.and_read_only attrs else attrs
  { retval with attrs := attrs }

/-! ## longname.rs : Long File Name records -/

/-- Modelled from the spec: the source calls ShortName::wrap_str, a symbol not
present under src; section 4.1 of the spec states that the LFN count is zero
exactly when the short-name parse succeeds, so wrap_str is the parse
ShortName::from_str. -/
def ShortName.wrap_str (name : List Char) : Option ShortName :=
  ShortName.from_str name

/-- Embedding of lfn_count_for_name (longname.rs lines 9-14); name.len() is
the UTF-8 byte length. -/
def lfn_count_for_name (name : List Char) : Nat :=
  if (ShortName.wrap_str name).isSome then 0
  else strByteLen name / 13 + if strByteLen name % 13 == 0 then 0 else 1

/-- Chunks of at most k elements, as slice::chunks produces them. -/
def chunksOf (k : Nat) (l : List Nat) : List (List Nat) :=
  if hc : k = 0 ∨ l.isEmpty then []
  else l.take k :: chunksOf k (l.drop k)
termination_by l.length
decreasing_by
  push_neg at hc
  have hk : k ≠ 0 := hc.1
  have hl : l ≠ [] := by simpa [List.isEmpty_iff] using hc.2
  have hpos : 0 < l.length := List.length_pos.mpr hl
  simp only [List.length_drop]
  omega

/-- One LFN record as the loop body of construct_name_entries builds it
(longname.rs lines 46-58); the sequence number is a u8. -/
def mkLfnEntry (checksum entries_len idx : Nat) (part : List Nat) : LfnDirEntry :=
  { entry_num :=
      if idx == entries_len - 1 then 0x40 ||| ((1 + idx % 256) % 256)
      else (1 + idx % 256) % 256
    attrs := FileAttributes.lfn
    checksum := checksum
    name_part := part ++ List.replicate (13 - part.length) 0 }

/-- The write loop of construct_name_entries over the enumerated chunks; the
buffer write buff.set is a no-op out of bounds where the source would panic,
so theorems restrict to entry counts that fit the 32-slot allocation. -/
def writeLfn : List (List Nat) → Nat → Nat → Nat → List LfnDirEntry → List LfnDirEntry
  | [], _, _, _, buff => buff
  | part :: rest, idx, entries_len, checksum, buff =>
    writeLfn rest (idx + 1) entries_len checksum
      (buff.set idx (mkLfnEntry checksum entries_len idx part))

/-- Embedding of construct_name_entries (longname.rs lines 21-59). -/
def construct_name_entries (name : List Char) (base : FileDirEntry)
    (allocation : List LfnDirEntry) : List LfnDirEntry :=
  let entries_len := lfn_count_for_name name
  if entries_len == 0 then allocation
  else
    let checksum := base.name.lfn_checksum
    writeLfn (chunksOf 13 (nameBytes name)) 0 entries_len checksum allocation

/-! ## faker.rs : the per-child directory entry stream -/

/-- The short-name hash loop of file_to_direntries (faker.rs lines 501-507);
idx is a wrapping u8, offset a wrapping u8 subtraction of the letter A. -/
def nameHash (name : List Char) : Nat :=
  (nameBytes name).foldl
    (fun idx bt =>
      let offset := (bt + 256 - 65) % 256
      let bottom_bits := offset &&& 0xF
      ((idx <<< 1) % 256) ^^^ bottom_bits)
    0

/-- An LFN chain: a length and a 32-slot allocation (faker.rs lines 517-521). -/
structure LfnChain where
  len : Nat
  allocation : List LfnDirEntry
deriving DecidableEq, Repr

def LfnChain.default : LfnChain :=
  { len := 0, allocation := List.replicate 32 LfnDirEntry.default }

/-- Embedding of file_to_direntries (faker.rs lines 498-515). -/
def file_to_direntries (name : List Char) (meta : FileMetadata) :
    FileDirEntry × LfnChain :=
  let fileent := meta.to_dirent
  let short_name := ShortName.convert_str name (nameHash name)
  let fileent := { fileent with name := short_name }
  let lfn_length := lfn_count_for_name name
  let allocation := construct_name_entries name fileent LfnChain.default.allocation
  (fileent, { len := lfn_length, allocation := allocation })

/-- The elements LfnChainIter yields starting from index i, newest slot first
(faker.rs lines 556-571). -/
def lfnIterFrom (c : LfnChain) : Nat → List LfnDirEntry
  | 0 => []
  | i + 1 => c.allocation.getD i LfnDirEntry.default :: lfnIterFrom c i

/-- The full yield of LfnChain::iter, which starts its index at the length. -/
def lfnChainIterList (c : LfnChain) : List LfnDirEntry :=
  lfnIterFrom c c.len

/-- The wire-order stream one child contributes in
DirectoryNewtype::fat_entries (faker.rs lines 434-448): the reversed LFN
records followed by the File record. -/
def childFatEntries (name : List Char) (meta : FileMetadata) :
    List Fat32DirectoryEntry :=
  let fl := file_to_direntries name meta
  (lfnChainIterList fl.2).map Fat32DirectoryEntry.LongFileName ++
    [Fat32DirectoryEntry.File fl.1]

/-! ## pathbuffer.rs : the alloc-backed PathBuff -/

structure PathBuff where
  bytes : List Char
  is_file : Bool
deriving DecidableEq, Repr

def PathBuff.default : PathBuff := ⟨['/'], false⟩

/-- Embedding of PathBuff::add_subdir (pathbuffer.rs lines 23-29). -/
def PathBuff.add_subdir (p : PathBuff) (component : List Char) : PathBuff :=
  let bytes := p.bytes ++ component
  let bytes := if bytes.getLast? == some '/' then bytes else bytes ++ ['/']
  { p with bytes := bytes }

/-- Embedding of PathBuff::add_file (pathbuffer.rs lines 31-35). -/
def PathBuff.add_file (p : PathBuff) (file_name : List Char) : PathBuff :=
  { bytes := p.bytes ++ file_name, is_file := true }

def PathBuff.to_str (p : PathBuff) : List Char := p.bytes

/-! ## faker.rs : the one-shot planner traverse.  The backing store is a tree
of nodes; a node whose metadata marks it as a directory carries its children,
matching what the FileSystemOps iterators hand the planner. -/

inductive FsNode where
  | node (name : List Char) (meta : FileMetadata) (children : List FsNode) : FsNode
deriving Repr

def FsNode.name : FsNode → List Char
  | .node n _ _ => n

def FsNode.meta : FsNode → FileMetadata
  | .node _ m _ => m

def FsNode.children : FsNode → List FsNode
  | .node _ _ c => c

/-- The total clusters ever inserted into the mapper stay bounded by this. -/
def clusterBound (m : AllocClusterMapper) : Nat :=
  (m.cluster_mapping.map (fun e => e.1)).foldr max 0 + 1

/-- The inner scan while is_allocated(cur) advances of the planner loops
(faker.rs lines 58-60 and 99-101). -/
def findFreeFrom (m : AllocClusterMapper) (cur : Nat) : Nat :=
  if h : m.is_allocated cur then findFreeFrom m (cur + 1) else cur
termination_by clusterBound m - cur
decreasing_by
  have hfold : ∀ (l : List Nat) (a : Nat), a ∈ l → a ≤ l.foldr max 0 := by
    intro l
    induction l with
    | nil => intro a ha; cases ha
    | cons b t ih =>
      intro a ha
      rcases List.mem_cons.mp ha with h1 | h2
      · simp [List.foldr, h1]
      · simp only [List.foldr]
        exact le_trans (ih a h2) (le_max_right _ _)
  have hb : cur < clusterBound m := by
    unfold AllocClusterMapper.is_allocated AllocClusterMapper.get_path_for_cluster at h
    cases hfind : List.find? (fun e => e.1 == cur) m.cluster_mapping with
    | none => rw [hfind] at h; simp at h
    | some e =>
      have hkey : e.1 = cur := by simpa using List.find?_some hfind
      have hmem : e ∈ m.cluster_mapping := List.mem_of_find?_eq_some hfind
      have hle : e.1 ≤ (m.cluster_mapping.map (fun e => e.1)).foldr max 0 :=
        hfold _ _ (List.mem_map_of_mem _ hmem)
      unfold clusterBound
      omega
  omega

/-- The outer directory-cluster loop of traverse (faker.rs lines 55-63): find
a free cluster from the cursor, append it to the directory chain, repeat; the
cursor stays at the last allocated cluster. -/
def allocDirClusters (m : AllocClusterMapper) (path : List Char) (cur_cluster : Nat) :
    Nat → AllocClusterMapper × Nat
  | 0 => (m, cur_cluster)
  | k + 1 =>
    let c := findFreeFrom m cur_cluster
    allocDirClusters (m.add_cluster_to_path path c) path c k

/-- The per-file cluster loop of traverse (faker.rs lines 96-105): each round
searches from cur_cluster + 12 and tracks the maximum cluster touched. -/
def allocFileClusters (m : AllocClusterMapper) (path : List Char)
    (cur_cluster max_cluster : Nat) : Nat → AllocClusterMapper × Nat
  | 0 => (m, max_cluster)
  | k + 1 =>
    let my_offset := findFreeFrom m (cur_cluster + 12)
    allocFileClusters (m.add_cluster_to_path path my_offset) path cur_cluster
      (max max_cluster my_offset) k

/-- Slot count of the directory blob (faker.rs lines 39-45). -/
def entrySlotCount (children : List FsNode) : Nat :=
  (children.map (fun e => 1 + lfn_count_for_name e.name)).sum

/-- The file loop of traverse (faker.rs lines 79-106), iterating the children
that are not directories. -/
def traverseFilesLoop (m : AllocClusterMapper) (cur : PathBuff) (cur_cluster bpc : Nat) :
    List FsNode → Nat → AllocClusterMapper × Nat
  | [], max_cluster => (m, max_cluster)
  | f :: rest, max_cluster =>
    let path := (PathBuff.default.add_subdir cur.to_str).add_file f.name
    let sz := f.meta.size
    let needed_subclusters_raw := sz / bpc + if sz % bpc == 0 then 0 else 1
    let needed_subclusters :=
      needed_subclusters_raw - (m.get_chain_for_path path.to_str).length
    let r := allocFileClusters m path.to_str cur_cluster max_cluster needed_subclusters
    traverseFilesLoop r.1 cur cur_cluster bpc rest r.2

mutual

/-- Embedding of traverse (faker.rs lines 33-119) for one directory whose
entry list is children: size the directory blob, allocate its chain, allocate
file children from the secondary cursor, then recurse into subdirectories. -/
def traverseNode (m : AllocClusterMapper) (cur : PathBuff) (children : List FsNode)
    (bpc : Nat) : AllocClusterMapper × Nat :=
  let entry_count := entrySlotCount children
  let needed_bytes := max entry_count 1 * 32
  let needed_clusters_raw := needed_bytes / bpc + if needed_bytes % bpc == 0 then 0 else 1
  let needed_clusters :=
    needed_clusters_raw - (m.get_chain_for_path cur.to_str).length
  let md := allocDirClusters m cur.to_str 0 needed_clusters
  let files := children.filter (fun e => !e.meta.is_directory)
  let mf := traverseFilesLoop md.1 cur md.2 bpc files md.2
  traverseDirsLoop mf.1 cur children bpc mf.2
termination_by (sizeOf children, 1)
decreasing_by
  apply Prod.Lex.right
  omega

/-- The subdirectory loop of traverse (faker.rs lines 108-117); children that
are not directories are skipped, matching the is_directory filter. -/
def traverseDirsLoop (m : AllocClusterMapper) (cur : PathBuff) (children : List FsNode)
    (bpc : Nat) (max_cluster : Nat) : AllocClusterMapper × Nat :=
  match children with
  | [] => (m, max_cluster)
  | child :: rest =>
    if child.meta.is_directory then
      let path := (PathBuff.default.add_subdir cur.to_str).add_subdir child.name
      let r := traverseNode m path child.children bpc
      traverseDirsLoop r.1 cur rest bpc (max max_cluster r.2)
    else
      traverseDirsLoop m cur rest bpc max_cluster
termination_by (sizeOf children, 0)
decreasing_by
  · apply Prod.Lex.left
    cases child with
    | node n mt ch => simp [FsNode.children]; omega
  · apply Prod.Lex.left
    simp_arith
  · apply Prod.Lex.left
    simp_arith

end

/-- The mapper built by FakeFat::new (faker.rs lines 125-157): an empty mapper
run through traverse from the path-prefix PathBuff, with the default geometry
of 512-byte sectors and 8 sectors per cluster. -/
def fakefat_new_mapper (root_children : List FsNode) (path_root : List Char) :
    AllocClusterMapper :=
  let pp := PathBuff.default.add_subdir path_root
  (traverseNode AllocClusterMapper.new pp root_children (512 * 8)).1

/-- The max cluster returned by the construction traverse. -/
def fakefat_new_max_cluster (root_children : List FsNode) (path_root : List Char) : Nat :=
  let pp := PathBuff.default.add_subdir path_root
  (traverseNode AllocClusterMapper.new pp root_children (512 * 8)).2

/-- The BiosParameterBlock FakeFat::new ends up with (faker.rs lines 131-147). -/
def fakefat_new_bpb (root_children : List FsNode) (path_root : List Char) :
    BiosParameterBlock :=
  let bpb := { BiosParameterBlock.default with
    bytes_per_sector := 512, sectors_per_cluster := 8 }
  let max_cluster := fakefat_new_max_cluster root_children path_root
  let total_clusters := max (bpb.root_dir_first_cluster + max_cluster + 1) 0xABCDEF
  let total_sectors := bpb.sectors_per_cluster * total_clusters
  let bpb := { bpb with total_sectors_32 := total_sectors }
  { bpb with sectors_per_fat_32 := default_sectors_per_fat bpb }

/-! ## faker.rs : resolve_raw_data -/

/-- Semantic data-region location (faker.rs, FakerDataAddress); the file and
directory handles the backing store returns are abstract. -/
inductive FakerDataAddress (F D : Type) where
  | FileAddr (file : F) (offset : Nat) : FakerDataAddress F D
  | DirectoryAddr (directory : D) (entry : Nat) (offset : Nat) : FakerDataAddress F D
deriving DecidableEq, Repr

/-- The backing FileSystemOps lookups used by resolve_raw_data (traits.rs). -/
structure FsOps (F D : Type) where
  get_file : List Char → Option F
  get_dir : List Char → Option D
  get_metadata : List Char → Option FileMetadata

def ENTRY_SIZE : Nat := 32

/-- Embedding of FakerDataAddress::resolve_raw_data (faker.rs lines 348-377).
The Option-of-chain flattened by into_iter().flatten() becomes getD []. -/
def resolve_raw_data {F D : Type} (cluster offset : Nat) (bpb : BiosParameterBlock)
    (m : AllocClusterMapper) (fs : FsOps F D) : Option (FakerDataAddress F D) :=
  let cluster_chain := (m.get_chain_with_cluster cluster).getD []
  let clusters_previous := (cluster_chain.takeWhile (fun c => c != cluster)).length
  let byte_offset := clusters_previous * bpb.bytes_per_cluster + offset
  match m.get_path_for_cluster cluster with
  | none => none
  | some path =>
    match fs.get_metadata path with
    | none => none
    | some meta =>
      if meta.is_directory then
        (fs.get_dir path).map (fun d =>
          FakerDataAddress.DirectoryAddr d (byte_offset / ENTRY_SIZE) (byte_offset % ENTRY_SIZE))
      else
        (fs.get_file path).map (fun f => FakerDataAddress.FileAddr f byte_offset)

/-! ## Statement helpers -/

/-- Decimal digits of a number, least significant first; the order in which
the duplicate-suffix loop of convert_str writes them downward from slot 7. -/
def digitsLE (n : Nat) : List Nat :=
  if h : n = 0 then [] else n % 10 :: digitsLE (n / 10)
termination_by n
decreasing_by exact Nat.div_lt_self (Nat.pos_of_ne_zero h) (by norm_num)

/-- Total number of occurrences of cluster c across every chain the mapper
holds. -/
def chainOccurrences (m : AllocClusterMapper) (c : Nat) : Nat :=
  (m.path_mapping.map (fun pc => pc.2.count c)).sum

/-- Mapper invariant carried through the planner: every cluster occurs at most
once across all chains, and a cluster occurring in a chain is allocated. -/
def MapperInv (m : AllocClusterMapper) : Prop :=
  ∀ c, chainOccurrences m c ≤ 1 ∧ (0 < chainOccurrences m c → m.is_allocated c = true)

/-- Concrete mapper for the FAT read-path evaluation: the chain of path f is
the two clusters 5 then 9. -/
def c1Mapper : AllocClusterMapper :=
  (AllocClusterMapper.new.add_cluster_to_path ['f'] 5).add_cluster_to_path ['f'] 9

/-- Concrete mapper for the resolver witness: cluster 0 belongs to path r. -/
def c10Mapper : AllocClusterMapper :=
  AllocClusterMapper.new.add_cluster_to_path ['r'] 0

/-- Concrete backing store for the resolver witness: every path resolves to a
directory. -/
def c10Fs : FsOps Unit Unit :=
  { get_file := fun _ => none
    get_dir := fun _ => some ()
    get_metadata := fun _ => some { FileMetadata.default with is_directory := true } }

/-! # Theorems -/

/-! ## C1 : FAT chain linkage on the read path -/

/-- C1: evaluation of the FAT read path at the failing input.  Path f owns the
chain [5, 9].  The claim requires the projected entry for cluster 5 to be
Next 9 (its successor) and the entry for cluster 9 to be End (last cluster);
the code instead yields Next 5 and Next 9: skip_while(l != cluster).next()
leaves the matched element in the iterator, so every allocated cluster points
at itself and the End arm is unreachable. -/
theorem c1_fat_chain_linkage_selfloop :
    c1Mapper.get_chain_with_cluster 5 = some [5, 9] ∧
    c1Mapper.get_chain_with_cluster 9 = some [5, 9] ∧
    fatEntryRead (fun _ => none) c1Mapper 5 = FatEntryValue.Next 5 ∧
    fatEntryRead (fun _ => none) c1Mapper 9 = FatEntryValue.Next 9 :=
  ⟨rfl, rfl, rfl, rfl⟩

/-! ## C3 : FAT entry codec round-trip -/

/-- C3 counterexample: the raw value 0x0FFFFFF8 decodes to End, which encodes
back to 0x0FFFFFFF, so not every 32-bit value round-trips. -/
theorem c3_roundtrip_counterexample :
    FatEntryValue.toU32 (FatEntryValue.fromU32 0x0FFFFFF8) ≠ 0x0FFFFFF8 := by
  decide

/-- C3 amended: every 32-bit value outside the collapsed End band
0x0FFFFFF8 to 0x0FFFFFFE round-trips through the codec, and decoding never
produces Next 0 nor Next n for n in the End sentinel range. -/
theorem c3_fat_codec_roundtrip (v : Nat) (hv : v < 4294967296)
    (hband : ¬ (0x0FFFFFF8 ≤ v ∧ v ≤ 0x0FFFFFFE)) :
    FatEntryValue.toU32 (FatEntryValue.fromU32 v) = v ∧
    FatEntryValue.fromU32 v ≠ FatEntryValue.Next 0 ∧
    ∀ n, 0x0FFFFFF8 ≤ n → n ≤ 0x0FFFFFFF → FatEntryValue.fromU32 v ≠ FatEntryValue.Next n := by
  unfold FatEntryValue.fromU32 FREE_ENTRY BAD_ENTRY
  split_ifs with h1 h2 h3
  · exact ⟨by simp [FatEntryValue.toU32, FREE_ENTRY, h1], by simp, by intro n _ _; simp⟩
  · exact ⟨by simp [FatEntryValue.toU32, BAD_ENTRY, h2], by simp, by intro n _ _; simp⟩
  · refine ⟨?_, by simp, by intro n _ _; simp⟩
    simp only [FatEntryValue.toU32, END_OF_CHAIN]
    omega
  · refine ⟨rfl, ?_, ?_⟩
    · simp only [ne_eq, FatEntryValue.Next.injEq]
      omega
    · intro n hn1 hn2
      simp only [ne_eq, FatEntryValue.Next.injEq]
      omega

/-- Witness for C3 at the concrete value 7. -/
theorem c3_fat_codec_roundtrip_witness :
    FatEntryValue.toU32 (FatEntryValue.fromU32 7) = 7 ∧
    FatEntryValue.fromU32 7 ≠ FatEntryValue.Next 0 ∧
    ∀ n, 0x0FFFFFF8 ≤ n → n ≤ 0x0FFFFFFF → FatEntryValue.fromU32 7 ≠ FatEntryValue.Next n :=
  c3_fat_codec_roundtrip 7 (by norm_num) (by norm_num)

/-! ## C7 : Date/time codec round-trip -/

/-- C7: for every valid calendar date between 1980 and 2107 the 16-bit FAT
date encoding decodes back to the same date, and for every valid time with an
even second count the decoded time carries the same second. -/
theorem c7_datetime_codec_roundtrip (y m d h mi s : Nat)
    (hy1 : 1980 ≤ y) (hy2 : y ≤ 2107) (hm1 : 1 ≤ m) (hm2 : m ≤ 12)
    (hd1 : 1 ≤ d) (hd2 : d ≤ 31) (hh : h ≤ 23) (hmi : mi ≤ 59) (hs : s ≤ 59)
    (hpar : s % 2 = 0) :
    Date.fat_decode (Date.fat_encode ⟨y, m, d⟩) = ⟨y, m, d⟩ ∧
    (Time.decode (Time.fat_encode_simple ⟨h, mi, s, 0⟩)).second = s := by
  constructor
  · have henc : Date.fat_encode ⟨y, m, d⟩ = 512 * (y - 1980) + 32 * m + d := by
      unfold Date.fat_encode
      simp only [Nat.shiftLeft_eq]
      rw [Nat.mod_eq_of_lt (show (y - 1980) * 2 ^ 9 < 65536 by omega)]
      rw [show (y - 1980) * 2 ^ 9 = 2 ^ 9 * (y - 1980) from by ring,
        show m * 2 ^ 5 = 2 ^ 5 * m from by ring]
      rw [← Nat.mul_add_lt_is_or (show 2 ^ 5 * m < 2 ^ 9 by omega) (y - 1980)]
      rw [show 2 ^ 9 * (y - 1980) + 2 ^ 5 * m = 2 ^ 5 * (2 ^ 4 * (y - 1980) + m) from by
        ring]
      rw [← Nat.mul_add_lt_is_or (show d < 2 ^ 5 by omega) (2 ^ 4 * (y - 1980) + m)]
      ring
    rw [henc]
    unfold Date.fat_decode Date.with_year Date.with_month Date.with_day Date.default
    simp only [Nat.shiftRight_eq_div_pow]
    rw [show (0xF : Nat) = 2 ^ 4 - 1 from rfl, show (0x1f : Nat) = 2 ^ 5 - 1 from rfl]
    simp only [Nat.and_pow_two_sub_one_eq_mod]
    simp only [Date.mk.injEq]
    refine ⟨by omega, by omega, by omega⟩
  · have henc : Time.fat_encode_simple ⟨h, mi, s, 0⟩ = 2048 * h + 32 * mi + s / 2 := by
      unfold Time.fat_encode_simple
      simp only [Nat.shiftLeft_eq]
      rw [Nat.mod_eq_of_lt (show h * 2 ^ 11 < 65536 by omega)]
      rw [show h * 2 ^ 11 = 2 ^ 11 * h from by ring,
        show mi * 2 ^ 5 = 2 ^ 5 * mi from by ring]
      rw [← Nat.mul_add_lt_is_or (show 2 ^ 5 * mi < 2 ^ 11 by omega) h]
      rw [show 2 ^ 11 * h + 2 ^ 5 * mi = 2 ^ 5 * (2 ^ 6 * h + mi) from by ring]
      rw [← Nat.mul_add_lt_is_or (show s / 2 < 2 ^ 5 by omega) (2 ^ 6 * h + mi)]
      ring
    rw [henc]
    unfold Time.decode Time.with_hour Time.with_minute Time.with_second Time.default
    rw [show (0x1F : Nat) = 2 ^ 5 - 1 from rfl]
    simp only [Nat.and_pow_two_sub_one_eq_mod]
    omega

/-- Witness for C7 at the last even second of 1999-12-31. -/
theorem c7_datetime_codec_roundtrip_witness :
    Date.fat_decode (Date.fat_encode ⟨1999, 12, 31⟩) = ⟨1999, 12, 31⟩ ∧
    (Time.decode (Time.fat_encode_simple ⟨23, 59, 58, 0⟩)).second = 58 :=
  c7_datetime_codec_roundtrip 1999 12 31 23 59 58 (by norm_num) (by norm_num)
    (by norm_num) (by norm_num) (by norm_num) (by norm_num) (by norm_num)
    (by norm_num) (by norm_num) (by norm_num)

/-! ## C9 : leap-year criterion of the epoch decomposition -/

/-- C9 counterexample: at zero epoch milliseconds the decomposition picks the
leap table (its years counter is zero) while the resulting calendar year is
1970, which is not divisible by four.  The claimed equivalence between table
selection and year mod four being zero therefore fails. -/
theorem c9_leap_criterion_counterexample :
    usesLeapTable 0 = true ∧ (Date.from_epoch_millis 0).year = 1970 ∧ 1970 % 4 ≠ 0 :=
  ⟨rfl, rfl, by norm_num⟩

/-- C9 amended: the leap table is selected exactly when the resulting calendar
year is congruent to 2 modulo 4, i.e. when the years-since-1970 counter is
divisible by four. -/
theorem c9_leap_criterion_amended (millis : Nat) :
    usesLeapTable millis = true ↔ (Date.from_epoch_millis millis).year % 4 = 2 := by
  simp only [usesLeapTable, Date.from_epoch_millis, Date.with_year, Date.with_month,
    Date.with_day, beq_iff_eq]
  omega

/-! ## C2 : address translation of FAT-region offsets -/

/-- C2: evaluation at the failing input.  With the geometry FakeFat::new
computes for an empty backing root (sectors_per_fat_32 = 87792, fat_start =
4096, fat_end = 89903104), the raw offset 91888 = fat_start + 87792 lies in
the first FAT copy.  The spec formula reduces the FAT offset modulo
sectors_per_fat_32 times bytes_per_sector and addresses cluster 21948, but
idx_to_cluster reduces it modulo the bare sector count sectors_per_fat_32 and
addresses cluster 0: the code divides by a sector count where a byte count is
required. -/
theorem c2_fat_translation_bug :
    (fakefat_new_bpb [] ['/']).sectors_per_fat_32 = 87792 ∧
    (fakefat_new_bpb [] ['/']).fat_start = 4096 ∧
    (fakefat_new_bpb [] ['/']).fat_start ≤ 91888 ∧
    91888 < (fakefat_new_bpb [] ['/']).fat_end ∧
    FakerAddress.from_raw_idx 91888 (fakefat_new_bpb [] ['/']) = FakerAddress.Fat 0 0 ∧
    specFatCluster (fakefat_new_bpb [] ['/']) 91888 = 21948 := by
  have hmax : fakefat_new_max_cluster [] ['/'] = 0 := by
    simp [fakefat_new_max_cluster, traverseNode, traverseDirsLoop, traverseFilesLoop,
      allocDirClusters, findFreeFrom, entrySlotCount, AllocClusterMapper.get_chain_for_path,
      AllocClusterMapper.new, AllocClusterMapper.is_allocated,
      AllocClusterMapper.get_path_for_cluster, AllocClusterMapper.add_cluster_to_path,
      PathBuff.default, PathBuff.add_subdir, PathBuff.to_str]
  have hbpb : fakefat_new_bpb [] ['/'] =
      { BiosParameterBlock.default with
        bytes_per_sector := 512
        sectors_per_cluster := 8
        total_sectors_32 := 90075000
        sectors_per_fat_32 := 87792 } := by
    unfold fakefat_new_bpb
    rw [hmax]
    norm_num [BiosParameterBlock.default, default_sectors_per_fat,
      BiosParameterBlock.bytes_per_cluster]
  rw [hbpb]
  refine ⟨rfl, rfl,
    by norm_num [BiosParameterBlock.fat_start, BiosParameterBlock.default],
    by norm_num [BiosParameterBlock.fat_end, BiosParameterBlock.fat_start,
      BiosParameterBlock.default], ?_, ?_⟩
  · norm_num [FakerAddress.from_raw_idx, BiosParameterBlock.fat_start,
      BiosParameterBlock.fat_end, BiosParameterBlock.default, BPB_SIZE, FSINFO_SIZE,
      idx_to_cluster]
  · norm_num [specFatCluster, BiosParameterBlock.default]

/-! ## C8 : suffix placement of the short-name conversion -/

theorem getD_set_self {α : Type} (l : List α) (i : Nat) (v d : α) (h : i < l.length) :
    (l.set i v).getD i d = v := by
  simp [List.getD_eq_getElem?_getD, List.getElem?_set_self h]

theorem getD_set_ne {α : Type} (l : List α) (i j : Nat) (v d : α) (h : i ≠ j) :
    (l.set i v).getD j d = l.getD j d := by
  simp [List.getD_eq_getElem?_getD, List.getElem?_set_ne h]

theorem writeNameBytes_length (cs : List Char) :
    ∀ (data : List Nat) (idx : Nat), (writeNameBytes data cs idx).length = data.length := by
  induction cs with
  | nil => intro data idx; rfl
  | cons c rest ih =>
    intro data idx
    simp only [writeNameBytes]
    split
    · simp
    · rw [ih]
      simp

theorem writeExtBytes_length (cs : List Char) :
    ∀ (data : List Nat) (idx : Nat), (writeExtBytes data cs idx).length = data.length := by
  induction cs with
  | nil => intro data idx; rfl
  | cons c rest ih =>
    intro data idx
    simp only [writeExtBytes]
    split
    · simp
    · rw [ih]
      simp

theorem digitLoopPair_length (left : Nat) :
    ∀ (data : List Nat) (cur : Nat), ((digitLoopPair data cur left).1).length = data.length := by
  induction left using Nat.strong_induction_on with
  | _ left ih =>
    intro data cur
    rw [digitLoopPair]
    split
    · rename_i hpos
      rw [ih (left / 10) (Nat.div_lt_self hpos (by norm_num))]
      simp
    · rfl

theorem digitLoopPair_untouched (left : Nat) :
    ∀ (data : List Nat) (cur j : Nat), cur < j →
      ((digitLoopPair data cur left).1).getD j 0 = data.getD j 0 := by
  induction left using Nat.strong_induction_on with
  | _ left ih =>
    intro data cur j hj
    rw [digitLoopPair]
    split
    · rename_i hpos
      rw [ih (left / 10) (Nat.div_lt_self hpos (by norm_num)) _ _ _ (by omega)]
      exact getD_set_ne _ _ _ _ _ (by omega)
    · rfl

theorem digitLoopPair_spec (left : Nat) :
    ∀ (data : List Nat) (cur : Nat), 0 < left → (digitsLE left).length ≤ cur →
      cur < data.length →
      (digitLoopPair data cur left).2 = cur - (digitsLE left).length ∧
      ∀ i, i < (digitsLE left).length →
        ((digitLoopPair data cur left).1).getD (cur - i) 0 = (digitsLE left).getD i 0 + 48 := by
  induction left using Nat.strong_induction_on with
  | _ left ih =>
    intro data cur hpos hk hlen
    have hne : ¬ left = 0 := by omega
    have hdig : digitsLE left = left % 10 :: digitsLE (left / 10) := by
      rw [digitsLE]
      simp [hne]
    rw [digitLoopPair]
    rw [dif_pos hpos]
    by_cases hq : left / 10 = 0
    · have hdig0 : digitsLE (left / 10) = [] := by rw [hq, digitsLE]; simp
      have hstop : digitLoopPair (data.set cur (left % 10 + 48)) (cur - 1) (left / 10) =
          (data.set cur (left % 10 + 48), cur - 1) := by
        rw [digitLoopPair, hq]
        simp
      rw [hstop]
      rw [hdig, hdig0]
      refine ⟨by simp, ?_⟩
      intro i hi
      simp only [List.length_cons, List.length_nil] at hi
      have hi0 : i = 0 := by omega
      subst hi0
      have hcl : cur < data.length := hlen
      simp only [Nat.sub_zero]
      rw [getD_set_self data cur _ _ hcl]
      simp
    · have hqpos : 0 < left / 10 := Nat.pos_of_ne_zero hq
      have hlt : left / 10 < left := Nat.div_lt_self hpos (by norm_num)
      have hklen : (digitsLE left).length = (digitsLE (left / 10)).length + 1 := by
        rw [hdig]; simp
      have hk2 : (digitsLE (left / 10)).length ≤ cur - 1 := by omega
      have hlen2 : cur - 1 < (data.set cur (left % 10 + 48)).length := by
        simp only [List.length_set]
        omega
      obtain ⟨hidx, hvals⟩ :=
        ih (left / 10) hlt (data.set cur (left % 10 + 48)) (cur - 1) hqpos hk2 hlen2
      constructor
      · rw [hidx, hklen]
        omega
      · intro i hi
        match i with
        | 0 =>
          rw [digitLoopPair_untouched (left / 10) _ _ _ (by omega)]
          simp only [Nat.sub_zero]
          rw [getD_set_self data cur _ _ hlen]
          rw [hdig]
          simp
        | i + 1 =>
          have hii : i < (digitsLE (left / 10)).length := by omega
          have := hvals i hii
          have harith : cur - (i + 1) = cur - 1 - i := by omega
          rw [harith, this, hdig]
          simp

theorem digitsLE_length_le (k : Nat) :
    ∀ n, n < 10 ^ k → (digitsLE n).length ≤ k := by
  induction k with
  | zero =>
    intro n hn
    have : n = 0 := by omega
    subst this
    rw [digitsLE]
    simp
  | succ k ih =>
    intro n hn
    by_cases h0 : n = 0
    · subst h0; rw [digitsLE]; simp
    · rw [digitsLE]
      simp only [h0, dite_false]
      have : n / 10 < 10 ^ k := by
        rw [Nat.div_lt_iff_lt_mul (by norm_num)]
        calc n < 10 ^ (k + 1) := hn
        _ = 10 ^ k * 10 := by ring
      have := ih (n / 10) this
      simp only [List.length_cons]
      omega

/-- For an unparseable name, the data of convert_str is an eleven-byte buffer
run through the duplicate-suffix writer. -/
theorem convert_str_data_of_none (name : List Char) (dup : Nat)
    (hna : ShortName.from_str name = none) :
    ∃ d0 : List Nat, d0.length = 11 ∧
      (ShortName.convert_str name dup).data =
        (if dup == 0 then (d0.set 6 126).set 7 126
         else (digitLoopPair d0 7 dup).1.set (digitLoopPair d0 7 dup).2 126) := by
  unfold ShortName.convert_str
  rw [hna]
  refine ⟨writeExtBytes (writeNameBytes ShortName.default.data
      (to_valid_shortname (match lastDotIdx name with
        | some i => name.take i
        | none => name)) 0)
      (to_valid_shortname (match lastDotIdx name with
        | some i => name.drop i
        | none => [])) 0, ?_, ?_⟩
  · rw [writeExtBytes_length, writeNameBytes_length]
    rfl
  · cases h0 : dup == 0 <;> simp [h0]

/-- C8 counterexample: the name A parses as a valid short name, so convert_str
returns it unchanged and its byte at index 6 is the pad space 32, not the
tilde 126 the claim requires for every input name with dup_count zero. -/
theorem c8_suffix_counterexample :
    (ShortName.convert_str ['A'] 0).data.getD 6 0 = 32 ∧ (32 : Nat) ≠ 126 :=
  ⟨rfl, by norm_num⟩

/-- C8 amended: for every name that is not already a valid short name (the
parse returns none), convert_str with dup_count zero writes tildes at name
byte indices 6 and 7, and with positive dup_count below 256 it writes the
decimal digits of dup_count descending from slot 7 toward lower indices (least
significant digit at slot 7) with a tilde immediately before them. -/
theorem c8_convert_suffix (name : List Char) (dup : Nat)
    (hna : ShortName.from_str name = none) (hdup : dup < 256) :
    (dup = 0 → (ShortName.convert_str name dup).data.getD 6 0 = 126 ∧
      (ShortName.convert_str name dup).data.getD 7 0 = 126) ∧
    (0 < dup →
      (∀ i, i < (digitsLE dup).length →
        (ShortName.convert_str name dup).data.getD (7 - i) 0 = (digitsLE dup).getD i 0 + 48) ∧
      (ShortName.convert_str name dup).data.getD (7 - (digitsLE dup).length) 0 = 126) := by
  obtain ⟨d0, hlen, hdata⟩ := convert_str_data_of_none name dup hna
  constructor
  · intro h0
    subst h0
    rw [hdata]
    simp only [beq_self_eq_true, if_true]
    constructor
    · rw [getD_set_ne _ _ _ _ _ (by omega)]
      exact getD_set_self _ _ _ _ (by simp [hlen])
    · exact getD_set_self _ _ _ _ (by simp [hlen])
  · intro hpos
    have h0 : (dup == 0) = false := by simp; omega
    rw [hdata, h0]
    simp only [Bool.false_eq_true, if_false]
    have hk3 : (digitsLE dup).length ≤ 3 := digitsLE_length_le 3 dup (by omega)
    obtain ⟨hidx, hvals⟩ := digitLoopPair_spec dup d0 7 hpos (by omega) (by omega)
    have hdl : ((digitLoopPair d0 7 dup).1).length = 11 := by
      rw [digitLoopPair_length, hlen]
    constructor
    · intro i hi
      rw [hidx]
      rw [getD_set_ne _ _ _ _ _ (by omega)]
      exact hvals i hi
    · rw [hidx]
      exact getD_set_self _ _ _ _ (by omega)

/-- Witness for C8 at the twelve-character name ABCDEFGHIJKL with dup_count
255: the suffix reads tilde, 2, 5, 5 at slots 4 through 7. -/
theorem c8_convert_suffix_witness :
    (ShortName.convert_str ("ABCDEFGHIJKL".toList) 255).data.getD 7 0 = 53 ∧
    (ShortName.convert_str ("ABCDEFGHIJKL".toList) 255).data.getD 6 0 = 53 ∧
    (ShortName.convert_str ("ABCDEFGHIJKL".toList) 255).data.getD 5 0 = 50 ∧
    (ShortName.convert_str ("ABCDEFGHIJKL".toList) 255).data.getD 4 0 = 126 := by
  have h := c8_convert_suffix ("ABCDEFGHIJKL".toList) 255 (by decide) (by norm_num)
  have hdig : digitsLE 255 = [5, 5, 2] := by
    rw [digitsLE]
    norm_num
    rw [digitsLE]
    norm_num
    rw [digitsLE]
    norm_num
    rw [digitsLE]
    norm_num
  obtain ⟨-, h2⟩ := h
  obtain ⟨hv, ht⟩ := h2 (by norm_num)
  have h70 := hv 0 (by rw [hdig]; norm_num)
  have h61 := hv 1 (by rw [hdig]; norm_num)
  have h52 := hv 2 (by rw [hdig]; norm_num)
  rw [hdig] at h70 h61 h52 ht
  simp only [List.length_cons, List.length_nil] at ht
  norm_num at h70 h61 h52 ht
  exact ⟨by simpa using h70, by simpa using h61, by simpa using h52, by simpa using ht⟩

/-! ## C5 and C6 : Long File Name wire order, numbering, checksum and
attribute -/

theorem chunksOf_length_13 : ∀ (n : Nat) (l : List Nat), l.length = n →
    (chunksOf 13 l).length = l.length / 13 + if l.length % 13 = 0 then 0 else 1 := by
  intro n
  induction n using Nat.strong_induction_on with
  | _ n ih =>
    intro l hl
    rw [chunksOf]
    by_cases he : l.isEmpty
    · have hnil : l = [] := by simpa [List.isEmpty_iff] using he
      subst hnil
      simp
    · rw [dif_neg (by simp [he])]
      simp only [List.length_cons]
      have hne : l ≠ [] := by simpa [List.isEmpty_iff] using he
      have hpos : 0 < l.length := List.length_pos.mpr hne
      have hlt : (l.drop 13).length < n := by
        simp only [List.length_drop]
        omega
      rw [ih _ hlt _ rfl]
      simp only [List.length_drop]
      split_ifs <;> omega

theorem writeLfn_getD (parts : List (List Nat)) :
    ∀ (idx n cs : Nat) (buff : List LfnDirEntry), idx + parts.length ≤ buff.length →
      (∀ j, j < idx → (writeLfn parts idx n cs buff).getD j LfnDirEntry.default =
        buff.getD j LfnDirEntry.default) ∧
      (∀ i, i < parts.length →
        (writeLfn parts idx n cs buff).getD (idx + i) LfnDirEntry.default =
          mkLfnEntry cs n (idx + i) (parts.getD i [])) := by
  induction parts with
  | nil =>
    intro idx n cs buff _
    exact ⟨fun j _ => rfl, fun i hi => absurd hi (by simp)⟩
  | cons p rest ih =>
    intro idx n cs buff hlen
    simp only [writeLfn]
    have hlen2 : idx + 1 + rest.length ≤ (buff.set idx (mkLfnEntry cs n idx p)).length := by
      simp only [List.length_set]
      simp only [List.length_cons] at hlen
      omega
    obtain ⟨hlow, hhigh⟩ := ih (idx + 1) n cs _ hlen2
    constructor
    · intro j hj
      rw [hlow j (by omega)]
      exact getD_set_ne _ _ _ _ _ (by omega)
    · intro i hi
      match i with
      | 0 =>
        rw [show idx + 0 = idx from rfl]
        rw [hlow idx (by omega)]
        rw [getD_set_self _ _ _ _ (by simp only [List.length_cons] at hlen; omega)]
        rfl
      | i + 1 =>
        have hii : i < rest.length := by simp only [List.length_cons] at hi; omega
        have := hhigh i hii
        rw [show idx + (i + 1) = idx + 1 + i from by omega]
        rw [this]
        rfl

theorem lfnIterFrom_eq (c : LfnChain) : ∀ (k : Nat),
    lfnIterFrom c k = (List.range k).reverse.map
      (fun i => c.allocation.getD i LfnDirEntry.default) := by
  intro k
  induction k with
  | zero => rfl
  | succ k ih =>
    rw [lfnIterFrom, ih, List.range_succ]
    simp

theorem mem_lfnIterFrom (c : LfnChain) (e : LfnDirEntry) : ∀ (k : Nat),
    e ∈ lfnIterFrom c k → ∃ i, i < k ∧ e = c.allocation.getD i LfnDirEntry.default := by
  intro k
  induction k with
  | zero => intro h; cases h
  | succ k ih =>
    intro h
    rw [lfnIterFrom] at h
    rcases List.mem_cons.mp h with h1 | h2
    · exact ⟨k, by omega, h1⟩
    · obtain ⟨i, hi, he⟩ := ih h2
      exact ⟨i, by omega, he⟩

theorem chunks_len_eq_lfn_count (name : List Char) (h0 : 0 < lfn_count_for_name name) :
    (chunksOf 13 (nameBytes name)).length = lfn_count_for_name name := by
  rw [chunksOf_length_13 (nameBytes name).length _ rfl]
  unfold lfn_count_for_name at h0 ⊢
  cases hw : (ShortName.wrap_str name).isSome with
  | true => rw [hw] at h0; simp at h0
  | false =>
    unfold strByteLen
    simp only [Bool.false_eq_true, if_false]
    split_ifs with h1 h2 <;> simp_all

theorem file_to_direntries_len (name : List Char) (meta : FileMetadata) :
    ((file_to_direntries name meta).2).len = lfn_count_for_name name := rfl

theorem file_to_direntries_alloc_length (name : List Char) (meta : FileMetadata) :
    ((file_to_direntries name meta).2).allocation.length = 32 := by
  unfold file_to_direntries construct_name_entries
  cases h : lfn_count_for_name name == 0
  · simp only [h, Bool.false_eq_true, if_false]
    generalize (chunksOf 13 (nameBytes name)) = parts
    have : ∀ (ps : List (List Nat)) (idx n cs : Nat) (buff : List LfnDirEntry),
        (writeLfn ps idx n cs buff).length = buff.length := by
      intro ps
      induction ps with
      | nil => intro idx n cs buff; rfl
      | cons p rest ih =>
        intro idx n cs buff
        rw [writeLfn, ih]
        simp
    rw [this]
    rfl
  · simp only [h, if_true]
    rfl

theorem file_to_direntries_alloc_getD (name : List Char) (meta : FileMetadata)
    (h0 : 0 < lfn_count_for_name name) (h32 : lfn_count_for_name name ≤ 32) :
    ∀ i, i < lfn_count_for_name name →
      ((file_to_direntries name meta).2).allocation.getD i LfnDirEntry.default =
        mkLfnEntry ((file_to_direntries name meta).1.name.lfn_checksum)
          (lfn_count_for_name name) i ((chunksOf 13 (nameBytes name)).getD i []) := by
  intro i hi
  have hch := chunks_len_eq_lfn_count name h0
  have hn0 : (lfn_count_for_name name == 0) = false := by simp; omega
  have hbuff : (0 : Nat) + (chunksOf 13 (nameBytes name)).length ≤
      LfnChain.default.allocation.length := by
    rw [hch]
    simp [LfnChain.default]
    omega
  have hhigh := (writeLfn_getD (chunksOf 13 (nameBytes name)) 0
    (lfn_count_for_name name)
    ((ShortName.convert_str name (nameHash name)).lfn_checksum)
    LfnChain.default.allocation hbuff).2 i (by omega)
  simp only [Nat.zero_add] at hhigh
  simp only [file_to_direntries, construct_name_entries, hn0, Bool.false_eq_true, if_false]
  exact hhigh

/-- The per-child wire stream laid out explicitly: the i-th wire slot of the
LFN block carries the record created at index i counted from the chain end,
and the File record closes the stream. -/
theorem childFatEntries_eq (name : List Char) (meta : FileMetadata)
    (h0 : 0 < lfn_count_for_name name) (h32 : lfn_count_for_name name ≤ 32) :
    childFatEntries name meta =
      ((List.range (lfn_count_for_name name)).reverse.map (fun i =>
        Fat32DirectoryEntry.LongFileName
          (mkLfnEntry ((file_to_direntries name meta).1.name.lfn_checksum)
            (lfn_count_for_name name) i ((chunksOf 13 (nameBytes name)).getD i [])))) ++
        [Fat32DirectoryEntry.File (file_to_direntries name meta).1] := by
  have halloc := file_to_direntries_alloc_getD name meta h0 h32
  have hstream : childFatEntries name meta =
      (lfnChainIterList (file_to_direntries name meta).2).map
        Fat32DirectoryEntry.LongFileName ++
        [Fat32DirectoryEntry.File (file_to_direntries name meta).1] := rfl
  have hiter : lfnChainIterList (file_to_direntries name meta).2 =
      (List.range (lfn_count_for_name name)).reverse.map (fun i =>
        mkLfnEntry ((file_to_direntries name meta).1.name.lfn_checksum)
          (lfn_count_for_name name) i ((chunksOf 13 (nameBytes name)).getD i [])) := by
    rw [lfnChainIterList, file_to_direntries_len, lfnIterFrom_eq]
    apply List.map_congr_left
    intro i hi
    have hi2 : i < lfn_count_for_name name := by
      rw [List.mem_reverse, List.mem_range] at hi
      exact hi
    exact halloc i hi2
  rw [hstream, hiter, List.map_map]
  rfl

/-- C5: for a child whose name needs LFN records and fits the 32-slot chain,
the projected stream is the creation-order records reversed followed by the
File record; the record at wire position i carries sequence number count minus
i, with the 0x40 bit OR'd onto the first; the record after the LFN block is
the File record and the stream has count plus one entries. -/
theorem c5_lfn_wire_order (name : List Char) (meta : FileMetadata)
    (h0 : 0 < lfn_count_for_name name) (h32 : lfn_count_for_name name ≤ 32) :
    childFatEntries name meta =
      ((List.range (lfn_count_for_name name)).reverse.map (fun i =>
        Fat32DirectoryEntry.LongFileName
          (mkLfnEntry ((file_to_direntries name meta).1.name.lfn_checksum)
            (lfn_count_for_name name) i ((chunksOf 13 (nameBytes name)).getD i [])))) ++
        [Fat32DirectoryEntry.File (file_to_direntries name meta).1] ∧
    (∀ i, i < lfn_count_for_name name →
      ∃ e, (childFatEntries name meta).getD i Fat32DirectoryEntry.Empty =
          Fat32DirectoryEntry.LongFileName e ∧
        e.entry_num = if i = 0 then 0x40 ||| lfn_count_for_name name
          else lfn_count_for_name name - i) ∧
    (childFatEntries name meta).getD (lfn_count_for_name name) Fat32DirectoryEntry.Empty =
      Fat32DirectoryEntry.File (file_to_direntries name meta).1 ∧
    (childFatEntries name meta).length = lfn_count_for_name name + 1 := by
  have hconj1 := childFatEntries_eq name meta h0 h32
  have hlfnlen : ((List.range (lfn_count_for_name name)).reverse.map (fun i =>
      Fat32DirectoryEntry.LongFileName
        (mkLfnEntry ((file_to_direntries name meta).1.name.lfn_checksum)
          (lfn_count_for_name name) i
          ((chunksOf 13 (nameBytes name)).getD i [])))).length =
      lfn_count_for_name name := by
    simp
  refine ⟨hconj1, ?_, ?_, ?_⟩
  · intro i hi
    refine ⟨mkLfnEntry ((file_to_direntries name meta).1.name.lfn_checksum)
      (lfn_count_for_name name) (lfn_count_for_name name - 1 - i)
      ((chunksOf 13 (nameBytes name)).getD (lfn_count_for_name name - 1 - i) []), ?_, ?_⟩
    · rw [hconj1]
      rw [List.getD_eq_getElem?_getD, List.getElem?_append_left (by rw [hlfnlen]; omega)]
      rw [List.getElem?_map]
      have hrl : i < (List.range (lfn_count_for_name name)).reverse.length := by
        simp
        omega
      rw [List.getElem?_eq_getElem hrl]
      rw [List.getElem_reverse]
      simp only [List.getElem_range, List.length_range, Option.map_some]
      rfl
    · unfold mkLfnEntry
      by_cases hizero : i = 0
      · subst hizero
        have hcond : (lfn_count_for_name name - 1 - 0 == lfn_count_for_name name - 1) = true := by
          simp
        rw [hcond]
        simp only [if_true, if_pos rfl]
        have : (1 + (lfn_count_for_name name - 1 - 0) % 256) % 256 =
            lfn_count_for_name name := by omega
        rw [this]
      · have hcond : (lfn_count_for_name name - 1 - i == lfn_count_for_name name - 1) =
            false := by
          simp
          omega
        rw [hcond]
        simp only [Bool.false_eq_true, if_false, if_neg hizero]
        omega
  · rw [hconj1]
    rw [List.getD_eq_getElem?_getD, List.getElem?_append_right (by rw [hlfnlen])]
    rw [hlfnlen]
    simp
  · rw [hconj1]
    simp

/-- Witness for C5 at the 18-character name ReadMeLongName.txt with default
metadata: the count is 2 and the first record byte is 0x42, the second 0x01. -/
theorem c5_lfn_wire_order_witness :
    lfn_count_for_name ("ReadMeLongName.txt".toList) = 2 ∧
    (∀ i, i < lfn_count_for_name ("ReadMeLongName.txt".toList) →
      ∃ e, (childFatEntries ("ReadMeLongName.txt".toList) FileMetadata.default).getD i
          Fat32DirectoryEntry.Empty = Fat32DirectoryEntry.LongFileName e ∧
        e.entry_num = if i = 0 then 0x40 ||| lfn_count_for_name ("ReadMeLongName.txt".toList)
          else lfn_count_for_name ("ReadMeLongName.txt".toList) - i) := by
  refine ⟨by decide, ?_⟩
  exact (c5_lfn_wire_order ("ReadMeLongName.txt".toList) FileMetadata.default
    (by decide) (by decide)).2.1

/-- C6: every LFN record in a child's projected stream carries the checksum of
the owning short name, and its attribute byte, read at slot byte 11, is 0x0F. -/
theorem c6_lfn_checksum_attr (name : List Char) (meta : FileMetadata)
    (h32 : lfn_count_for_name name ≤ 32) :
    ∀ e, Fat32DirectoryEntry.LongFileName e ∈ childFatEntries name meta →
      e.checksum = (file_to_direntries name meta).1.name.lfn_checksum ∧
      e.attrs = 0x0F ∧ e.read_byte 11 = 0x0F := by
  intro e he
  unfold childFatEntries at he
  rcases List.mem_append.mp he with h1 | h2
  · obtain ⟨x, hx, hxe⟩ := List.mem_map.mp h1
    have hex : x = e := by injection hxe
    subst hex
    obtain ⟨i, hi, hxi⟩ := mem_lfnIterFrom _ _ _ hx
    rw [file_to_direntries_len] at hi
    have h0 : 0 < lfn_count_for_name name := by omega
    have := file_to_direntries_alloc_getD name meta h0 h32 i hi
    rw [hxi, this]
    exact ⟨rfl, rfl, rfl⟩
  · exfalso
    simp at h2

/-- Witness for C6 at the first wire record of the 18-character name
ReadMeLongName.txt. -/
theorem c6_lfn_checksum_attr_witness :
    (mkLfnEntry ((file_to_direntries ("ReadMeLongName.txt".toList)
        FileMetadata.default).1.name.lfn_checksum) 2 1
        ((chunksOf 13 (nameBytes ("ReadMeLongName.txt".toList))).getD 1 [])).checksum =
      (file_to_direntries ("ReadMeLongName.txt".toList)
        FileMetadata.default).1.name.lfn_checksum ∧
    (mkLfnEntry ((file_to_direntries ("ReadMeLongName.txt".toList)
        FileMetadata.default).1.name.lfn_checksum) 2 1
        ((chunksOf 13 (nameBytes ("ReadMeLongName.txt".toList))).getD 1 [])).attrs = 0x0F ∧
    (mkLfnEntry ((file_to_direntries ("ReadMeLongName.txt".toList)
        FileMetadata.default).1.name.lfn_checksum) 2 1
        ((chunksOf 13 (nameBytes ("ReadMeLongName.txt".toList))).getD 1 [])).read_byte 11 =
      0x0F := by
  have hmem : Fat32DirectoryEntry.LongFileName
      (mkLfnEntry ((file_to_direntries ("ReadMeLongName.txt".toList)
        FileMetadata.default).1.name.lfn_checksum) 2 1
        ((chunksOf 13 (nameBytes ("ReadMeLongName.txt".toList))).getD 1 [])) ∈
      childFatEntries ("ReadMeLongName.txt".toList) FileMetadata.default := by
    have hc : lfn_count_for_name ("ReadMeLongName.txt".toList) = 2 := by decide
    have hstream := childFatEntries_eq ("ReadMeLongName.txt".toList) FileMetadata.default
      (by decide) (by decide)
    rw [hc] at hstream
    rw [hstream]
    simp [List.range_succ]
  exact c6_lfn_checksum_attr ("ReadMeLongName.txt".toList) FileMetadata.default
    (by decide) _ hmem

/-! ## C4 : cluster-chain disjointness after planning -/

theorem count_single_ite (c x : Nat) : List.count x [c] = if x = c then 1 else 0 := by
  rw [List.count_singleton]
  by_cases h : x = c
  · subst h; simp
  · rw [if_neg h, if_neg]
    simp only [beq_iff_eq]
    omega

theorem sum_count_pushChain (p : List Char) (c x : Nat) :
    ∀ pm : List (List Char × List Nat),
      ((pushChain pm p c).map (fun pc => pc.2.count x)).sum =
        (pm.map (fun pc => pc.2.count x)).sum + if x = c then 1 else 0 := by
  intro pm
  induction pm with
  | nil =>
    simp only [pushChain, List.map_cons, List.map_nil, List.sum_cons, List.sum_nil]
    rw [count_single_ite]
    omega
  | cons e rest ih =>
    simp only [pushChain]
    by_cases he : (e.1 == p) = true
    · rw [if_pos he]
      simp only [List.map_cons, List.sum_cons, List.count_append]
      rw [count_single_ite]
      omega
    · rw [if_neg he]
      simp only [List.map_cons, List.sum_cons, ih]
      omega

theorem chainOccurrences_add (m : AllocClusterMapper) (p : List Char) (c x : Nat) :
    chainOccurrences (m.add_cluster_to_path p c) x =
      chainOccurrences m x + if x = c then 1 else 0 := by
  unfold chainOccurrences AllocClusterMapper.add_cluster_to_path
  exact sum_count_pushChain p c x m.path_mapping

theorem find?_setClusterPath (c : Nat) (p : List Char) (x : Nat) :
    ∀ cm : List (Nat × List Char),
      List.find? (fun e => e.1 == x) (setClusterPath cm c p) =
        if x = c then some (c, p) else List.find? (fun e => e.1 == x) cm := by
  intro cm
  induction cm with
  | nil =>
    simp only [setClusterPath, List.find?]
    by_cases h : x = c
    · subst h; simp
    · have : (c == x) = false := by simp; omega
      simp [this, h]
  | cons e rest ih =>
    simp only [setClusterPath]
    by_cases he : (e.1 == c) = true
    · rw [if_pos he]
      have hec : e.1 = c := by simpa using he
      by_cases h : x = c
      · subst h
        rw [if_pos rfl]
        simp [List.find?_cons]
      · rw [if_neg h]
        have h1 : (c == x) = false := by simp; omega
        have h2 : (e.1 == x) = false := by rw [hec]; exact h1
        simp only [List.find?_cons, h1, h2]
    · rw [if_neg he]
      by_cases hex : (e.1 == x) = true
      · have hxc : ¬ x = c := by
          intro hh
          subst hh
          simp_all
        rw [if_neg hxc]
        simp only [List.find?_cons, hex]
      · have hex2 : (e.1 == x) = false := by simpa using hex
        simp only [List.find?_cons, hex2]
        exact ih

theorem is_allocated_add (m : AllocClusterMapper) (p : List Char) (c x : Nat) :
    (m.add_cluster_to_path p c).is_allocated x =
      (if x = c then true else m.is_allocated x) := by
  unfold AllocClusterMapper.is_allocated AllocClusterMapper.get_path_for_cluster
    AllocClusterMapper.add_cluster_to_path
  simp only [find?_setClusterPath]
  by_cases h : x = c
  · simp [h]
  · simp [h]

theorem MapperInv_add (m : AllocClusterMapper) (p : List Char) (c : Nat)
    (hInv : MapperInv m) (hna : m.is_allocated c = false) :
    MapperInv (m.add_cluster_to_path p c) := by
  intro x
  have hocc := chainOccurrences_add m p c x
  have hall := is_allocated_add m p c x
  by_cases h : x = c
  · subst h
    have hz : chainOccurrences m x = 0 := by
      by_contra hnz
      have hpos : 0 < chainOccurrences m x := Nat.pos_of_ne_zero hnz
      have := (hInv x).2 hpos
      rw [this] at hna
      cases hna
    constructor
    · rw [hocc, hz]
      simp
    · intro _
      rw [hall]
      simp
  · constructor
    · rw [hocc]
      simp only [if_neg h]
      have := (hInv x).1
      omega
    · intro hpos
      rw [hall]
      simp only [if_neg h]
      apply (hInv x).2
      rw [hocc] at hpos
      simp only [if_neg h] at hpos
      omega

theorem is_allocated_lt_bound (m : AllocClusterMapper) (cur : Nat)
    (h : m.is_allocated cur = true) : cur < clusterBound m := by
  have hfold : ∀ (l : List Nat) (a : Nat), a ∈ l → a ≤ l.foldr max 0 := by
    intro l
    induction l with
    | nil => intro a ha; cases ha
    | cons b t ih =>
      intro a ha
      rcases List.mem_cons.mp ha with h1 | h2
      · simp [List.foldr, h1]
      · simp only [List.foldr]
        exact le_trans (ih a h2) (le_max_right _ _)
  unfold AllocClusterMapper.is_allocated AllocClusterMapper.get_path_for_cluster at h
  cases hfind : List.find? (fun e => e.1 == cur) m.cluster_mapping with
  | none => rw [hfind] at h; simp at h
  | some e =>
    have hkey : e.1 = cur := by simpa using List.find?_some hfind
    have hmem : e ∈ m.cluster_mapping := List.mem_of_find?_eq_some hfind
    have hle : e.1 ≤ (m.cluster_mapping.map (fun e => e.1)).foldr max 0 :=
      hfold _ _ (List.mem_map_of_mem _ hmem)
    unfold clusterBound
    omega

theorem findFreeFrom_not_allocated (m : AllocClusterMapper) (cur : Nat) :
    m.is_allocated (findFreeFrom m cur) = false := by
  have H : ∀ (fuel c : Nat), clusterBound m - c ≤ fuel →
      m.is_allocated (findFreeFrom m c) = false := by
    intro fuel
    induction fuel with
    | zero =>
      intro c hle
      rw [findFreeFrom]
      by_cases h : m.is_allocated c = true
      · exfalso
        have := is_allocated_lt_bound m c h
        omega
      · rw [dif_neg h]
        simpa using h
    | succ n ih =>
      intro c hle
      rw [findFreeFrom]
      by_cases h : m.is_allocated c = true
      · rw [dif_pos h]
        apply ih
        have := is_allocated_lt_bound m c h
        omega
      · rw [dif_neg h]
        simpa using h
  exact H (clusterBound m) cur (by omega)

theorem MapperInv_allocDirClusters (k : Nat) :
    ∀ (m : AllocClusterMapper) (path : List Char) (cur : Nat), MapperInv m →
      MapperInv (allocDirClusters m path cur k).1 := by
  induction k with
  | zero => intro m path cur hm; exact hm
  | succ k ih =>
    intro m path cur hm
    exact ih _ _ _ (MapperInv_add _ _ _ hm (findFreeFrom_not_allocated m cur))

theorem MapperInv_allocFileClusters (k : Nat) :
    ∀ (m : AllocClusterMapper) (path : List Char) (cc maxc : Nat), MapperInv m →
      MapperInv (allocFileClusters m path cc maxc k).1 := by
  induction k with
  | zero => intro m path cc maxc hm; exact hm
  | succ k ih =>
    intro m path cc maxc hm
    exact ih _ _ _ _ (MapperInv_add _ _ _ hm (findFreeFrom_not_allocated m (cc + 12)))

theorem MapperInv_traverseFilesLoop (files : List FsNode) :
    ∀ (m : AllocClusterMapper) (cur : PathBuff) (cc bpc maxc : Nat), MapperInv m →
      MapperInv (traverseFilesLoop m cur cc bpc files maxc).1 := by
  induction files with
  | nil => intro m cur cc bpc maxc hm; exact hm
  | cons f rest ih =>
    intro m cur cc bpc maxc hm
    exact ih _ _ _ _ _ (MapperInv_allocFileClusters _ _ _ _ _ hm)

theorem MapperInv_traverseDirsLoop : ∀ (N : Nat) (children : List FsNode),
    sizeOf children ≤ N → ∀ (m : AllocClusterMapper) (cur : PathBuff) (bpc maxc : Nat),
      MapperInv m → MapperInv (traverseDirsLoop m cur children bpc maxc).1 := by
  intro N
  induction N using Nat.strong_induction_on with
  | _ N ih =>
    intro children hsz m cur bpc maxc hm
    cases children with
    | nil =>
      rw [traverseDirsLoop]
      exact hm
    | cons child rest =>
      rw [traverseDirsLoop]
      have hszc : sizeOf child.children < N := by
        have hlt : sizeOf child.children < sizeOf (child :: rest) := by
          cases child with
          | node n mt ch =>
            simp [FsNode.children]
            omega
        omega
      have hszr : sizeOf rest < N := by
        have hlt : sizeOf rest < sizeOf (child :: rest) := by simp
        omega
      by_cases hd : child.meta.is_directory = true
      · simp only [hd, if_true]
        have hinner : MapperInv (traverseNode m
            ((PathBuff.default.add_subdir cur.to_str).add_subdir child.name)
            child.children bpc).1 := by
          rw [traverseNode]
          exact ih (sizeOf child.children) hszc child.children le_rfl _ _ _ _
            (MapperInv_traverseFilesLoop _ _ _ _ _ _
              (MapperInv_allocDirClusters _ _ _ _ hm))
        exact ih (sizeOf rest) hszr rest le_rfl _ _ _ _ hinner
      · simp only [hd, if_false]
        exact ih (sizeOf rest) hszr rest le_rfl _ _ _ _ hm

theorem MapperInv_traverseNode (children : List FsNode) (m : AllocClusterMapper)
    (cur : PathBuff) (bpc : Nat) (hm : MapperInv m) :
    MapperInv (traverseNode m cur children bpc).1 := by
  rw [traverseNode]
  exact MapperInv_traverseDirsLoop (sizeOf children) children le_rfl _ _ _ _
    (MapperInv_traverseFilesLoop _ _ _ _ _ _ (MapperInv_allocDirClusters _ _ _ _ hm))

/-- C4: after the planning pass of FakeFat::new completes on any backing tree,
every cluster index occurs at most once across all chains of the resulting
mapper: it appears in the chain of at most one path and at most once within
that chain. -/
theorem c4_cluster_chains_disjoint (root_children : List FsNode) (path_root : List Char)
    (c : Nat) : chainOccurrences (fakefat_new_mapper root_children path_root) c ≤ 1 := by
  have hnew : MapperInv AllocClusterMapper.new := by
    intro x
    constructor
    · simp [chainOccurrences, AllocClusterMapper.new]
    · intro h
      simp [chainOccurrences, AllocClusterMapper.new] at h
  exact (MapperInv_traverseNode root_children AllocClusterMapper.new
    (PathBuff.default.add_subdir path_root) (512 * 8) hnew c).1

/-! ## C10 : totality of the directory branch of read_byte -/

/-- C10: whenever resolve_raw_data classifies a cluster as a directory access,
the mapper holds a path for that cluster, so the unwrap of
get_path_for_cluster in the directory branch of read_byte cannot panic. -/
theorem c10_resolve_directory_has_path {F D : Type} (cluster offset : Nat)
    (bpb : BiosParameterBlock) (m : AllocClusterMapper) (fs : FsOps F D)
    (d : D) (e o : Nat)
    (h : resolve_raw_data cluster offset bpb m fs =
      some (FakerDataAddress.DirectoryAddr d e o)) :
    ∃ p, m.get_path_for_cluster cluster = some p := by
  unfold resolve_raw_data at h
  cases hp : m.get_path_for_cluster cluster with
  | none => rw [hp] at h; simp at h
  | some p => exact ⟨p, rfl⟩

/-- Witness for C10 on a one-cluster mapper and an all-directories store. -/
theorem c10_resolve_directory_has_path_witness :
    ∃ p, c10Mapper.get_path_for_cluster 0 = some p :=
  c10_resolve_directory_has_path 0 5 BiosParameterBlock.default c10Mapper c10Fs
    () 0 5 rfl

end FakeFat
